import Mathlib

/-!
Verification of the chartwise technical-analysis core.

Shallow embedding of the quantitative components:
* `src/utils/candlePatterns.ts` — candlestick pattern detector;
* the divergence detector component (peak finding, divergence matching,
  aggregation);
* the correlation engine (`calculateCorrelation`);
* the treemap layout engine (`squarify` in `MarketHeatmap.tsx`).

JavaScript numbers are modelled as exact rationals (ℚ), except for the
correlation engine whose `Math.sqrt` forces real numbers (ℝ).  A JavaScript
`NaN` sentinel inside an indicator series is modelled as `none` in
`Option ℚ`.  Array indices are natural numbers; quantities the code computes
by possibly-negative integer arithmetic (such as the pattern detector's
`globalIdx`) are integers.
-/

/-! ## Candlestick pattern detector (`src/utils/candlePatterns.ts`) -/

/-- One OHLCV candle.  `open` is a Lean keyword, hence the field `open_`. -/
structure OHLCV where
  time : ℤ
  open_ : ℚ
  high : ℚ
  low : ℚ
  close : ℚ
  volume : ℚ
  deriving DecidableEq, Repr

inductive PatternType where
  | bullish
  | bearish
  | neutral
  deriving DecidableEq, Repr

inductive Reliability where
  | high
  | medium
  | low
  deriving DecidableEq, Repr

/-- `CandlePattern` record; `index` is an integer because the code computes it
by `data.length - lookback + i`, which can be negative. -/
structure CandlePattern where
  name : String
  type : PatternType
  description : String
  index : ℤ
  reliability : Reliability
  deriving DecidableEq, Repr

/-- JavaScript `Math.abs` on an exact rational. -/
def qabs (q : ℚ) : ℚ := if q < 0 then -q else q

def bodySize (candle : OHLCV) : ℚ := qabs (candle.close - candle.open_)

def upperWick (candle : OHLCV) : ℚ := candle.high - max candle.open_ candle.close

def lowerWick (candle : OHLCV) : ℚ := min candle.open_ candle.close - candle.low

def isBullish (candle : OHLCV) : Prop := candle.close > candle.open_

def isBearish (candle : OHLCV) : Prop := candle.close < candle.open_

instance (c : OHLCV) : Decidable (isBullish c) := by unfold isBullish; infer_instance

instance (c : OHLCV) : Decidable (isBearish c) := by unfold isBearish; infer_instance

def totalRange (candle : OHLCV) : ℚ := candle.high - candle.low

def detectDoji (candle : OHLCV) (avgBody : ℚ) : Option CandlePattern :=
  if bodySize candle < avgBody * 0.1 ∧ totalRange candle > avgBody * 0.5 then
    some { name := "Doji", type := .neutral,
           description := "Indecision - potential reversal",
           index := 0, reliability := .medium }
  else none

def detectHammer (candle : OHLCV) (avgBody : ℚ) : Option CandlePattern :=
  let body := bodySize candle
  let lower := lowerWick candle
  let upper := upperWick candle
  if lower > body * 2 ∧ upper < body * 0.5 ∧ body > avgBody * 0.3 then
    some { name := if isBullish candle then "Hammer" else "Hanging Man",
           type := if isBullish candle then .bullish else .bearish,
           description := if isBullish candle then "Bullish reversal signal"
                          else "Bearish reversal signal",
           index := 0, reliability := .high }
  else none

def detectShootingStar (candle : OHLCV) (avgBody : ℚ) : Option CandlePattern :=
  let body := bodySize candle
  let lower := lowerWick candle
  let upper := upperWick candle
  if upper > body * 2 ∧ lower < body * 0.5 ∧ body > avgBody * 0.3 then
    some { name := if isBearish candle then "Shooting Star" else "Inverted Hammer",
           type := if isBearish candle then .bearish else .bullish,
           description := if isBearish candle then "Bearish reversal signal"
                          else "Potential bullish reversal",
           index := 0, reliability := .high }
  else none

def detectMarubozu (candle : OHLCV) (avgBody : ℚ) : Option CandlePattern :=
  let body := bodySize candle
  let upper := upperWick candle
  let lower := lowerWick candle
  if body > avgBody * 1.5 ∧ upper < body * 0.05 ∧ lower < body * 0.05 then
    some { name := if isBullish candle then "Bullish Marubozu" else "Bearish Marubozu",
           type := if isBullish candle then .bullish else .bearish,
           description := "Strong momentum continuation",
           index := 0, reliability := .high }
  else none

/-- Two-candle engulfing test; the source takes `avgBody` but does not use it. -/
def detectEngulfing (prev curr : OHLCV) (_avgBody : ℚ) : Option CandlePattern :=
  let prevBody := bodySize prev
  let currBody := bodySize curr
  if isBearish prev ∧ isBullish curr ∧ currBody > prevBody * 1.2 ∧
      curr.open_ < prev.close ∧ curr.close > prev.open_ then
    some { name := "Bullish Engulfing", type := .bullish,
           description := "Strong bullish reversal pattern",
           index := 0, reliability := .high }
  else if isBullish prev ∧ isBearish curr ∧ currBody > prevBody * 1.2 ∧
      curr.open_ > prev.close ∧ curr.close < prev.open_ then
    some { name := "Bearish Engulfing", type := .bearish,
           description := "Strong bearish reversal pattern",
           index := 0, reliability := .high }
  else none

def detectPiercing (prev curr : OHLCV) : Option CandlePattern :=
  if isBearish prev ∧ isBullish curr ∧ curr.open_ < prev.low ∧
      curr.close > (prev.open_ + prev.close) / 2 ∧ curr.close < prev.open_ then
    some { name := "Piercing Line", type := .bullish,
           description := "Bullish reversal - closes above midpoint",
           index := 0, reliability := .medium }
  else none

def detectDarkCloud (prev curr : OHLCV) : Option CandlePattern :=
  if isBullish prev ∧ isBearish curr ∧ curr.open_ > prev.high ∧
      curr.close < (prev.open_ + prev.close) / 2 ∧ curr.close > prev.open_ then
    some { name := "Dark Cloud Cover", type := .bearish,
           description := "Bearish reversal - closes below midpoint",
           index := 0, reliability := .medium }
  else none

/-- Out-of-range list access never happens in the scan (indices stay below the
window length); `getD` with this dummy mirrors the in-bounds JS access. -/
def defaultCandle : OHLCV := ⟨0, 0, 0, 0, 0, 0⟩

def detectMorningStar (data : List OHLCV) (idx : Nat) (avgBody : ℚ) :
    Option CandlePattern :=
  if idx < 2 then none else
  let first := data.getD (idx - 2) defaultCandle
  let second := data.getD (idx - 1) defaultCandle
  let third := data.getD idx defaultCandle
  if isBearish first ∧ bodySize first > avgBody ∧
      bodySize second < avgBody * 0.3 ∧
      isBullish third ∧ bodySize third > avgBody ∧
      third.close > (first.open_ + first.close) / 2 then
    some { name := "Morning Star", type := .bullish,
           description := "Strong bullish reversal (3-candle)",
           index := 0, reliability := .high }
  else none

def detectEveningStar (data : List OHLCV) (idx : Nat) (avgBody : ℚ) :
    Option CandlePattern :=
  if idx < 2 then none else
  let first := data.getD (idx - 2) defaultCandle
  let second := data.getD (idx - 1) defaultCandle
  let third := data.getD idx defaultCandle
  if isBullish first ∧ bodySize first > avgBody ∧
      bodySize second < avgBody * 0.3 ∧
      isBearish third ∧ bodySize third > avgBody ∧
      third.close < (first.open_ + first.close) / 2 then
    some { name := "Evening Star", type := .bearish,
           description := "Strong bearish reversal (3-candle)",
           index := 0, reliability := .high }
  else none

def detectThreeWhiteSoldiers (data : List OHLCV) (idx : Nat) (avgBody : ℚ) :
    Option CandlePattern :=
  if idx < 2 then none else
  let c0 := data.getD (idx - 2) defaultCandle
  let c1 := data.getD (idx - 1) defaultCandle
  let c2 := data.getD idx defaultCandle
  if (isBullish c0 ∧ bodySize c0 > avgBody * 0.7) ∧
      (isBullish c1 ∧ bodySize c1 > avgBody * 0.7) ∧
      (isBullish c2 ∧ bodySize c2 > avgBody * 0.7) ∧
      c1.close > c0.close ∧ c2.close > c1.close ∧
      c1.open_ > c0.open_ ∧ c2.open_ > c1.open_ then
    some { name := "Three White Soldiers", type := .bullish,
           description := "Strong bullish continuation",
           index := 0, reliability := .high }
  else none

def detectThreeBlackCrows (data : List OHLCV) (idx : Nat) (avgBody : ℚ) :
    Option CandlePattern :=
  if idx < 2 then none else
  let c0 := data.getD (idx - 2) defaultCandle
  let c1 := data.getD (idx - 1) defaultCandle
  let c2 := data.getD idx defaultCandle
  if (isBearish c0 ∧ bodySize c0 > avgBody * 0.7) ∧
      (isBearish c1 ∧ bodySize c1 > avgBody * 0.7) ∧
      (isBearish c2 ∧ bodySize c2 > avgBody * 0.7) ∧
      c1.close < c0.close ∧ c2.close < c1.close ∧
      c1.open_ < c0.open_ ∧ c2.open_ < c1.open_ then
    some { name := "Three Black Crows", type := .bearish,
           description := "Strong bearish continuation",
           index := 0, reliability := .high }
  else none

/-- JavaScript `data.slice(-lookback)`: the whole array when `lookback = 0`,
otherwise the last `min lookback data.length` elements. -/
def recentSlice (data : List OHLCV) (lookback : Nat) : List OHLCV :=
  if lookback = 0 then data else data.drop (data.length - lookback)

/-- Attach the computed global index to a detector hit. -/
def withIndex (gi : ℤ) : Option CandlePattern → List CandlePattern
  | none => []
  | some p => [{ p with index := gi }]

/-- One iteration of the scan loop of `detectCandlePatterns`: all patterns
pushed at window position `i`, in push order.  `globalIdx` is the code's
`data.length - lookback + i`, taken over ℤ. -/
def scanBlock (dataLen lookback : ℤ) (recentData : List OHLCV) (avgBody : ℚ)
    (i : Nat) : List CandlePattern :=
  let globalIdx : ℤ := dataLen - lookback + (i : ℤ)
  let candle := recentData.getD i defaultCandle
  withIndex globalIdx (detectDoji candle avgBody) ++
  withIndex globalIdx (detectHammer candle avgBody) ++
  withIndex globalIdx (detectShootingStar candle avgBody) ++
  withIndex globalIdx (detectMarubozu candle avgBody) ++
  (if 0 < i then
    let prev := recentData.getD (i - 1) defaultCandle
    withIndex globalIdx (detectEngulfing prev candle avgBody) ++
    withIndex globalIdx (detectPiercing prev candle) ++
    withIndex globalIdx (detectDarkCloud prev candle)
  else []) ++
  (if 2 ≤ i then
    withIndex globalIdx (detectMorningStar recentData i avgBody) ++
    withIndex globalIdx (detectEveningStar recentData i avgBody) ++
    withIndex globalIdx (detectThreeWhiteSoldiers recentData i avgBody) ++
    withIndex globalIdx (detectThreeBlackCrows recentData i avgBody)
  else [])

/-- The full scan of `detectCandlePatterns` before the final `slice(-10)`:
every pattern pushed, in push order (ascending window position). -/
def candleScan (data : List OHLCV) (lookback : Nat) : List CandlePattern :=
  let recentData := recentSlice data lookback
  let avgBody := (recentData.map bodySize).sum / (recentData.length : ℚ)
  (List.range recentData.length).flatMap
    (scanBlock (data.length : ℤ) (lookback : ℤ) recentData avgBody)

/-- Main entry: scan, then JS `patterns.slice(-10)` = drop all but the last
10 pushed patterns. -/
def detectCandlePatterns (data : List OHLCV) (lookback : Nat := 50) :
    List CandlePattern :=
  if data.length < 3 then []
  else
    let patterns := candleScan data lookback
    patterns.drop (patterns.length - 10)

/-- A textbook three-candle Morning Star: a large bearish candle, a
zero-body middle candle, a large bullish candle closing above the first
candle's midpoint. -/
def morningStarData : List OHLCV :=
  [⟨0, 100, 100, 91, 91, 0⟩,
   ⟨1, 91, 91, 91, 91, 0⟩,
   ⟨2, 91, 104, 90, 103, 0⟩]

def twoCandleData : List OHLCV :=
  [⟨0, 100, 100, 91, 91, 0⟩,
   ⟨1, 91, 91, 91, 91, 0⟩]

/-! ## Divergence detector (peak finding and divergence matching) -/

inductive PeakKind where
  | high
  | low
  deriving DecidableEq, Repr

structure Peak where
  index : Nat
  value : ℚ
  type : PeakKind
  deriving DecidableEq, Repr

/-- Series element access; a JS `NaN` entry is `none`.  All reads performed by
the algorithms are in range, so the `getD` default is never produced. -/
def nthVal (data : List (Option ℚ)) (j : Nat) : Option ℚ := data.getD j none

/-- Inner neighbourhood test of `findPeaks` for a local high: every non-`NaN`
neighbour `j ≠ i` with `i - lookback ≤ j ≤ i + lookback` is strictly below
`v`. -/
def isHighAt (data : List (Option ℚ)) (lookback i : Nat) (v : ℚ) : Bool :=
  (List.range' (i - lookback) (2 * lookback + 1)).all fun j =>
    j == i ||
      match nthVal data j with
      | none => true
      | some u => decide (u < v)

/-- Inner neighbourhood test of `findPeaks` for a local low. -/
def isLowAt (data : List (Option ℚ)) (lookback i : Nat) (v : ℚ) : Bool :=
  (List.range' (i - lookback) (2 * lookback + 1)).all fun j =>
    j == i ||
      match nthVal data j with
      | none => true
      | some u => decide (v < u)

/-- One iteration of the `findPeaks` loop: the peak entries pushed at index
`i`, in push order (a high before a low). -/
def peaksBlock (data : List (Option ℚ)) (lookback i : Nat) : List Peak :=
  if lookback ≤ i ∧ i + lookback < data.length then
    match nthVal data i with
    | none => []
    | some v =>
      (if isHighAt data lookback i v then [⟨i, v, PeakKind.high⟩] else []) ++
      (if isLowAt data lookback i v then [⟨i, v, PeakKind.low⟩] else [])
  else []

/-- `findPeaks` of the divergence component: strict local extrema over a
symmetric window of half-width `lookback`, skipping `NaN` entries. -/
def findPeaks (data : List (Option ℚ)) (lookback : Nat := 5) : List Peak :=
  (List.range data.length).flatMap (peaksBlock data lookback)

inductive Strength where
  | weak
  | moderate
  | strong
  deriving DecidableEq, Repr

inductive IndicatorName where
  | RSI
  | MACD
  deriving DecidableEq, Repr

inductive DivergenceType where
  | bullish
  | bearish
  deriving DecidableEq, Repr

/-- A detected divergence.  The source record also carries a presentational
`description` template string (built with `toFixed`), omitted here. -/
structure Divergence where
  type : DivergenceType
  indicator : IndicatorName
  startIndex : Nat
  endIndex : Nat
  priceStart : ℚ
  priceEnd : ℚ
  indicatorStart : ℚ
  indicatorEnd : ℚ
  strength : Strength
  deriving DecidableEq, Repr

/-- The strength classification applied to `combinedStrength`. -/
def classifyStrength (combinedStrength : ℚ) : Strength :=
  if combinedStrength > 0.15 then .strong
  else if combinedStrength > 0.08 then .moderate
  else .weak

/-- JavaScript `v || 1`: `1` when `v` is `0`, else `v`. -/
def jsOrOne (v : ℚ) : ℚ := if v = 0 then 1 else v

/-- The consecutive pairs `(l[i], l[i+1])` visited by the matching loops. -/
def consecutivePairs {α : Type} (l : List α) : List (α × α) := l.zip l.tail

/-- Body of the bearish matching loop for one consecutive pair of price
highs. -/
def mkBearishDivergence (indicatorName : IndicatorName)
    (lookback maxDistance : Nat) (indHighs : List Peak) (pr : Peak × Peak) :
    Option Divergence :=
  let ph1 := pr.1
  let ph2 := pr.2
  if (ph2.index : ℤ) - (ph1.index : ℤ) > (maxDistance : ℤ) then none
  else if ph2.value ≤ ph1.value then none
  else
    match indHighs.find?
        (fun ih => decide (((ih.index : ℤ) - (ph1.index : ℤ)).natAbs ≤ lookback + 2)) with
    | none => none
    | some ih1 =>
      match indHighs.find?
          (fun ih => decide (((ih.index : ℤ) - (ph2.index : ℤ)).natAbs ≤ lookback + 2)) with
      | none => none
      | some ih2 =>
        if ih1.value ≤ ih2.value then none
        else
          let priceDiff := (ph2.value - ph1.value) / ph1.value
          let indDiff := (ih1.value - ih2.value) / qabs (jsOrOne ih1.value)
          some { type := .bearish, indicator := indicatorName,
                 startIndex := ph1.index, endIndex := ph2.index,
                 priceStart := ph1.value, priceEnd := ph2.value,
                 indicatorStart := ih1.value, indicatorEnd := ih2.value,
                 strength := classifyStrength (priceDiff + indDiff) }

/-- Body of the bullish matching loop for one consecutive pair of price
lows. -/
def mkBullishDivergence (indicatorName : IndicatorName)
    (lookback maxDistance : Nat) (indLows : List Peak) (pr : Peak × Peak) :
    Option Divergence :=
  let pl1 := pr.1
  let pl2 := pr.2
  if (pl2.index : ℤ) - (pl1.index : ℤ) > (maxDistance : ℤ) then none
  else if pl1.value ≤ pl2.value then none
  else
    match indLows.find?
        (fun il => decide (((il.index : ℤ) - (pl1.index : ℤ)).natAbs ≤ lookback + 2)) with
    | none => none
    | some il1 =>
      match indLows.find?
          (fun il => decide (((il.index : ℤ) - (pl2.index : ℤ)).natAbs ≤ lookback + 2)) with
      | none => none
      | some il2 =>
        if il2.value ≤ il1.value then none
        else
          let priceDiff := (pl1.value - pl2.value) / pl1.value
          let indDiff := (il2.value - il1.value) / qabs (jsOrOne il1.value)
          some { type := .bullish, indicator := indicatorName,
                 startIndex := pl1.index, endIndex := pl2.index,
                 priceStart := pl1.value, priceEnd := pl2.value,
                 indicatorStart := il1.value, indicatorEnd := il2.value,
                 strength := classifyStrength (priceDiff + indDiff) }

/-- `detectDivergences`: bearish matches over consecutive price highs followed
by bullish matches over consecutive price lows. -/
def detectDivergences (prices indicatorValues : List (Option ℚ))
    (indicatorName : IndicatorName) (lookback : Nat := 5)
    (maxDistance : Nat := 30) : List Divergence :=
  let pricePeaks := findPeaks prices lookback
  let indicatorPeaks := findPeaks indicatorValues lookback
  let priceHighs := pricePeaks.filter (fun p => p.type == PeakKind.high)
  let priceLows := pricePeaks.filter (fun p => p.type == PeakKind.low)
  let indHighs := indicatorPeaks.filter (fun p => p.type == PeakKind.high)
  let indLows := indicatorPeaks.filter (fun p => p.type == PeakKind.low)
  (consecutivePairs priceHighs).filterMap
    (mkBearishDivergence indicatorName lookback maxDistance indHighs) ++
  (consecutivePairs priceLows).filterMap
    (mkBullishDivergence indicatorName lookback maxDistance indLows)

/-! ### Indicators feeding the divergence detector

`src/utils/indicators.ts` is not among the provided sources — only its
callers are — so `RSI` and `MACD` are modelled from the spec.  The claims
settled below do not depend on the numeric values these produce. -/

def seriesAt (s : List ℚ) (j : Nat) : ℚ := s.getD j 0

/-- Modelled from the spec: missing `RSI` of `src/utils/indicators.ts`.
"Wilder-style relative strength index; average of gains and average of losses
over a trailing `period`, ratio converted to a 0-100 oscillator; undefined
for indices `< period`."  The zero-average-loss case saturates at 100. -/
def RSI (series : List ℚ) (period : Nat := 14) : List (Option ℚ) :=
  (List.range series.length).map fun i =>
    if i < period then none
    else
      let avgGain := ((List.range' (i - period + 1) period).map fun j =>
        max (seriesAt series j - seriesAt series (j - 1)) 0).sum / (period : ℚ)
      let avgLoss := ((List.range' (i - period + 1) period).map fun j =>
        max (seriesAt series (j - 1) - seriesAt series j) 0).sum / (period : ℚ)
      some (if avgLoss = 0 then 100 else 100 - 100 / (1 + avgGain / avgLoss))

/-- Exponential average recursion with multiplier `k`, seeded at `prev`. -/
def emaFrom (k prev : ℚ) : List ℚ → List ℚ
  | [] => []
  | x :: xs =>
    let e := x * k + prev * (1 - k)
    e :: emaFrom k e xs

/-- Modelled from the spec: exponential moving average, conventional
multiplier `2/(n+1)`, seeded at the first value. -/
def EMA (series : List ℚ) (n : Nat) : List ℚ :=
  match series with
  | [] => []
  | x :: xs => x :: emaFrom (2 / ((n : ℚ) + 1)) x xs

structure MACDResult where
  line : List ℚ
  signal : List ℚ
  histogram : List ℚ
  deriving DecidableEq, Repr

/-- Modelled from the spec: missing `MACD` of `src/utils/indicators.ts`.
"Fast/slow exponential averages (conventionally 12/26), their difference is
the MACD line; a further exponential average (conventionally 9) of the line
is the signal; histogram = line - signal." -/
def MACD (series : List ℚ) : MACDResult :=
  let line := List.zipWith (fun a b => a - b) (EMA series 12) (EMA series 26)
  let signal := EMA line 9
  let histogram := List.zipWith (fun a b => a - b) line signal
  ⟨line, signal, histogram⟩

/-! ### Aggregation by the `DivergenceDetector` component -/

/-- Descending `endIndex` comparison used by the component sort. -/
def byEndIndexDesc (a b : Divergence) : Prop := b.endIndex ≤ a.endIndex

instance : DecidableRel byEndIndexDesc := fun a b => by
  unfold byEndIndexDesc; infer_instance

instance : IsTotal Divergence byEndIndexDesc :=
  ⟨fun a b => Nat.le_total b.endIndex a.endIndex⟩

instance : IsTrans Divergence byEndIndexDesc :=
  ⟨fun _ _ _ hab hbc => le_trans hbc hab⟩

/-- Stable sort by descending `endIndex` (JS `Array.prototype.sort` is
stable, as is insertion sort). -/
def sortByEndIndexDesc (l : List Divergence) : List Divergence :=
  l.insertionSort byEndIndexDesc

/-- The two detector runs merged in component order: RSI first, then the MACD
histogram. -/
def mergedDivergences (data : List OHLCV) : List Divergence :=
  let closes := data.map OHLCV.close
  detectDivergences (closes.map some) (RSI closes 14) .RSI 5 25 ++
  detectDivergences (closes.map some) ((MACD closes).histogram.map some) .MACD 5 25

/-- The divergence list of the `DivergenceDetector` component: empty below 30
candles, else both detector runs merged, sorted by descending `endIndex`,
truncated to the first 10. -/
def divergenceAggregate (data : List OHLCV) : List Divergence :=
  if data.length < 30 then []
  else (sortByEndIndexDesc (mergedDivergences data)).take 10

/-- A series with price highs 10 then 11 (higher high) at indices 1 and 7. -/
def divPrices : List (Option ℚ) :=
  [some 0, some 10, some 0, some 0, some 0, some 0, some 0, some 11, some 0]

/-- An oscillator with highs 6 then 3 (lower high) at indices 1 and 7. -/
def divIndicator : List (Option ℚ) :=
  [some 0, some 6, some 0, some 0, some 0, some 0, some 0, some 3, some 0]

/-! ## Treemap layout engine (`squarify` in `MarketHeatmap.tsx`) -/

structure HeatItem where
  symbol : String
  weight : ℚ
  change : ℚ
  name : String
  price : ℚ
  marketCap : ℚ
  deriving DecidableEq, Repr

structure TreemapRect where
  x : ℚ
  y : ℚ
  w : ℚ
  h : ℚ
  symbol : String
  change : ℚ
  name : String
  price : ℚ
  marketCap : ℚ
  deriving DecidableEq, Repr

def totalWeight (items : List HeatItem) : ℚ := (items.map HeatItem.weight).sum

/-- The slice-and-dice loop of `squarify`, with the loop counter `i`, the
cursor `(x, y)`, the remaining container and weight, and the active slicing
direction as explicit state. -/
def squarifyGo : List HeatItem → Nat → ℚ → ℚ → ℚ → ℚ → ℚ → Bool →
    List TreemapRect
  | [], _, _, _, _, _, _, _ => []
  | item :: rest, i, x, y, remainingWidth, remainingHeight, remainingWeight,
      horizontal =>
    let ratio := item.weight / remainingWeight
    let nextHorizontal := if i % 3 == 2 then !horizontal else horizontal
    if horizontal then
      let w := remainingWidth * ratio
      let h := remainingHeight
      { x := x, y := y, w := w, h := h, symbol := item.symbol,
        change := item.change, name := item.name, price := item.price,
        marketCap := item.marketCap } ::
        squarifyGo rest (i + 1) (x + w) y (remainingWidth - w) remainingHeight
          (remainingWeight - item.weight) nextHorizontal
    else
      let w := remainingWidth
      let h := remainingHeight * ratio
      { x := x, y := y, w := w, h := h, symbol := item.symbol,
        change := item.change, name := item.name, price := item.price,
        marketCap := item.marketCap } ::
        squarifyGo rest (i + 1) x (y + h) remainingWidth (remainingHeight - h)
          (remainingWeight - item.weight) nextHorizontal

/-- `squarify`: degenerate inputs yield an empty layout; otherwise the
slice-and-dice loop starting horizontal iff `width >= height`. -/
def squarify (items : List HeatItem) (containerWidth containerHeight : ℚ) :
    List TreemapRect :=
  if items.length = 0 ∨ containerWidth ≤ 0 ∨ containerHeight ≤ 0 then []
  else if totalWeight items ≤ 0 then []
  else
    squarifyGo items 0 0 0 containerWidth containerHeight (totalWeight items)
      (decide (containerHeight ≤ containerWidth))

/-! ## Correlation engine (`calculateCorrelation` in the correlation matrix
component)

`Math.sqrt` forces the model into ℝ, so these definitions are noncomputable;
all stated properties are settled by proof, not evaluation. -/

/-- JS `slice(-n)` for `0 < n ≤ l.length`: the last `n` elements. -/
def lastN {α : Type} (l : List α) (n : Nat) : List α := l.drop (l.length - n)

noncomputable def listMean (l : List ℝ) : ℝ := l.sum / (l.length : ℝ)

noncomputable def deviations (l : List ℝ) : List ℝ :=
  l.map (fun v => v - listMean l)

/-- Sum of squared deviations (the code's `denomA`/`denomB`). -/
noncomputable def ssd (l : List ℝ) : ℝ :=
  ((deviations l).map (fun d => d * d)).sum

/-- `calculateCorrelation`: truncate to the common suffix, guard tiny samples
and a zero denominator with `0`, else the Pearson coefficient. -/
noncomputable def calculateCorrelation (a b : List ℝ) : ℝ :=
  let n := min a.length b.length
  if n < 5 then 0
  else
    let aSlice := lastN a n
    let bSlice := lastN b n
    let numerator :=
      (List.zipWith (fun da db => da * db) (deviations aSlice)
        (deviations bSlice)).sum
    let denominator := Real.sqrt (ssd aSlice * ssd bSlice)
    if denominator = 0 then 0 else numerator / denominator

def demoItems : List HeatItem :=
  [⟨"BTC", 3, 1, "Bitcoin", 50000, 1000⟩,
   ⟨"ETH", 1, -1, "Ethereum", 3000, 400⟩]

def corrSeries : List ℝ := [1, 2, 3, 4, 5]

def constSeries : List ℝ := [1, 1, 1, 1, 1]

def peakData : List (Option ℚ) := [some 0, some 5, some 1]

/-- The combined-strength metric recomputed from a divergence record's own
fields, matching the code's `priceDiff + indDiff` for either direction. -/
def combinedStrengthOf (d : Divergence) : ℚ :=
  match d.type with
  | .bearish => (d.priceEnd - d.priceStart) / d.priceStart +
      (d.indicatorStart - d.indicatorEnd) / qabs (jsOrOne d.indicatorStart)
  | .bullish => (d.priceStart - d.priceEnd) / d.priceStart +
      (d.indicatorEnd - d.indicatorStart) / qabs (jsOrOne d.indicatorStart)

/-- The single divergence detected on `divPrices` / `divIndicator` with
half-window 1. -/
def demoDivergence : Divergence :=
  ⟨.bearish, .RSI, 1, 7, 10, 11, 6, 3, .strong⟩

def thirtyCandles : List OHLCV := List.replicate 30 ⟨0, 1, 1, 1, 1, 0⟩

/-! ## Claim theorems -/

unseal Rat.inv Rat.mul Rat.add Rat.sub Rat.ofScientific in
/-- C1: on the three-candle Morning Star series with the default lookback of
50, `detectCandlePatterns` returns a single pattern whose `index` is `-45`,
which is not an absolute position in the series: it violates
`0 ≤ index < length`.  The code computes `data.length - lookback + i`
without accounting for `slice(-lookback)` clamping on short series. -/
theorem detectCandlePatterns_index_not_absolute :
    morningStarData.length = 3 ∧
    (detectCandlePatterns morningStarData 50).map CandlePattern.index = [(-45 : ℤ)] ∧
    ∃ p ∈ detectCandlePatterns morningStarData 50, p.index < 0 := by
  decide

unseal Rat.inv Rat.mul Rat.add Rat.sub Rat.ofScientific in
/-- C2: fewer than 3 candles yields `[]`, and the textbook Morning Star series
yields exactly one pattern, a `bullish`/`high`-reliability "Morning Star" —
but its `index` is `-45`, not the claimed last index `2`. -/
theorem detectCandlePatterns_morning_star_index :
    detectCandlePatterns twoCandleData 50 = [] ∧
    detectCandlePatterns ([] : List OHLCV) 50 = [] ∧
    (detectCandlePatterns morningStarData 50).map
        (fun p => (p.name, p.type, p.reliability, p.index)) =
      [("Morning Star", PatternType.bullish, Reliability.high, (-45 : ℤ))] ∧
    ¬ ∃ p ∈ detectCandlePatterns morningStarData 50, p.index = 2 := by
  decide

/-! ### Structure of the scan (claim C6) -/

theorem withIndex_index {gi : ℤ} {o : Option CandlePattern} {p : CandlePattern}
    (hp : p ∈ withIndex gi o) : p.index = gi := by
  cases o with
  | none => simp [withIndex] at hp
  | some a =>
    simp only [withIndex, List.mem_singleton] at hp
    subst hp
    rfl

theorem scanBlock_index {L lb : ℤ} {r : List OHLCV} {ab : ℚ} {i : Nat}
    {p : CandlePattern} (hp : p ∈ scanBlock L lb r ab i) :
    p.index = L - lb + (i : ℤ) := by
  simp only [scanBlock, List.mem_append] at hp
  rcases hp with ((((h | h) | h) | h) | h) | h
  · exact withIndex_index h
  · exact withIndex_index h
  · exact withIndex_index h
  · exact withIndex_index h
  · split at h
    · simp only [List.mem_append] at h
      rcases h with (h | h) | h <;> exact withIndex_index h
    · simp at h
  · split at h
    · simp only [List.mem_append] at h
      rcases h with ((h | h) | h) | h <;> exact withIndex_index h
    · simp at h

/-- Pairwise monotonicity of a key over a `flatMap` whose blocks each carry a
single key value, indexed by a strictly increasing list. -/
theorem pairwise_flatMap_of_key {α : Type} (K : α → ℤ) (k : Nat → ℤ)
    (g : Nat → List α) :
    ∀ (l : List Nat), List.Pairwise (· < ·) l →
      (∀ i ∈ l, ∀ p ∈ g i, K p = k i) →
      (∀ i j : Nat, i < j → k i ≤ k j) →
      List.Pairwise (fun p q => K p ≤ K q) (l.flatMap g) := by
  intro l
  induction l with
  | nil => intro _ _ _; simp
  | cons a t ih =>
    intro hl hg hk
    rw [List.flatMap_cons, List.pairwise_append]
    rw [List.pairwise_cons] at hl
    refine ⟨?_, ih hl.2 (fun i hi => hg i (List.mem_cons_of_mem _ hi)) hk, ?_⟩
    · apply List.pairwise_of_forall_mem_list
      intro p hp q hq
      rw [hg a (List.mem_cons_self _ _) p hp, hg a (List.mem_cons_self _ _) q hq]
    · intro p hp q hq
      rcases List.mem_flatMap.mp hq with ⟨j, hj, hqj⟩
      rw [hg a (List.mem_cons_self _ _) p hp,
        hg j (List.mem_cons_of_mem _ hj) q hqj]
      exact hk a j (hl.1 j hj)

theorem candleScan_pairwise_index (data : List OHLCV) (lookback : Nat) :
    List.Pairwise (fun p q : CandlePattern => p.index ≤ q.index)
      (candleScan data lookback) := by
  unfold candleScan
  apply pairwise_flatMap_of_key _ (fun i => (data.length : ℤ) - (lookback : ℤ) + i)
  · exact List.pairwise_lt_range _
  · intro i _ p hp
    exact scanBlock_index hp
  · intro i j hij
    omega

/-- C6: the detector keeps exactly the suffix of the scan past index
`length - 10` (the JS `slice(-10)`), hence at most 10 patterns; the scan
emits patterns in nondecreasing order of `index`, so every dropped match has
an index no larger than every kept match. -/
theorem detectCandlePatterns_keeps_last_ten (data : List OHLCV) (lookback : Nat) :
    (detectCandlePatterns data lookback).length ≤ 10 ∧
    (3 ≤ data.length →
      detectCandlePatterns data lookback =
        (candleScan data lookback).drop ((candleScan data lookback).length - 10)) ∧
    List.Pairwise (fun p q : CandlePattern => p.index ≤ q.index)
      (candleScan data lookback) ∧
    (∀ p ∈ (candleScan data lookback).take ((candleScan data lookback).length - 10),
      ∀ q ∈ (candleScan data lookback).drop ((candleScan data lookback).length - 10),
        p.index ≤ q.index) := by
  refine ⟨?_, ?_, candleScan_pairwise_index data lookback, ?_⟩
  · unfold detectCandlePatterns
    split
    · simp
    · simp only [List.length_drop]
      omega
  · intro h3
    unfold detectCandlePatterns
    rw [if_neg (by omega)]
  · intro p hp q hq
    have hpair := candleScan_pairwise_index data lookback
    set m := (candleScan data lookback).length - 10 with hm
    rw [← List.take_append_drop m (candleScan data lookback),
      List.pairwise_append] at hpair
    exact hpair.2.2 p hp q hq

/-- Witness for C6 at the concrete Morning Star series. -/
theorem detectCandlePatterns_keeps_last_ten_witness :
    (detectCandlePatterns morningStarData 50).length ≤ 10 ∧
    detectCandlePatterns morningStarData 50 =
      (candleScan morningStarData 50).drop
        ((candleScan morningStarData 50).length - 10) := by
  refine ⟨(detectCandlePatterns_keeps_last_ten morningStarData 50).1, ?_⟩
  exact (detectCandlePatterns_keeps_last_ten morningStarData 50).2.1 (by decide)

/-! ### Treemap tiling (claim C3) -/

theorem totalWeight_nonneg {items : List HeatItem}
    (hw : ∀ it ∈ items, 0 ≤ it.weight) : 0 ≤ totalWeight items := by
  induction items with
  | nil => simp [totalWeight]
  | cons it rest ih =>
    simp only [totalWeight, List.map_cons, List.sum_cons]
    have h1 := hw it (List.mem_cons_self _ _)
    have h2 := ih (fun x hx => hw x (List.mem_cons_of_mem _ hx))
    simp only [totalWeight] at h2
    linarith

theorem totalWeight_pos {items : List HeatItem} (hne : items ≠ [])
    (hw : ∀ it ∈ items, 0 < it.weight) : 0 < totalWeight items := by
  match items, hne with
  | it :: rest, _ =>
    simp only [totalWeight, List.map_cons, List.sum_cons]
    have h1 := hw it (List.mem_cons_self _ _)
    have h2 : 0 ≤ totalWeight rest :=
      totalWeight_nonneg (fun x hx => le_of_lt (hw x (List.mem_cons_of_mem _ hx)))
    simp only [totalWeight] at h2
    linarith

/-- One-step unfolding of the loop on a nonempty list. -/
theorem squarifyGo_cons (item : HeatItem) (rest : List HeatItem) (i : Nat)
    (x y W H S : ℚ) (horizontal : Bool) :
    squarifyGo (item :: rest) i x y W H S horizontal =
      if horizontal then
        { x := x, y := y, w := W * (item.weight / S), h := H,
          symbol := item.symbol, change := item.change, name := item.name,
          price := item.price, marketCap := item.marketCap } ::
          squarifyGo rest (i + 1) (x + W * (item.weight / S)) y
            (W - W * (item.weight / S)) H (S - item.weight)
            (if i % 3 == 2 then !horizontal else horizontal)
      else
        { x := x, y := y, w := W, h := H * (item.weight / S),
          symbol := item.symbol, change := item.change, name := item.name,
          price := item.price, marketCap := item.marketCap } ::
          squarifyGo rest (i + 1) x (y + H * (item.weight / S)) W
            (H - H * (item.weight / S)) (S - item.weight)
            (if i % 3 == 2 then !horizontal else horizontal) := rfl

/-- Area invariant of the slice-and-dice loop: when started with the exact
remaining weight, the produced rectangles cover exactly the remaining
container area. -/
theorem squarifyGo_area :
    ∀ (items : List HeatItem) (i : Nat) (x y W H : ℚ) (horizontal : Bool),
      items ≠ [] → (∀ it ∈ items, 0 < it.weight) →
      ((squarifyGo items i x y W H (totalWeight items) horizontal).map
        (fun r => r.w * r.h)).sum = W * H := by
  intro items
  induction items with
  | nil => intro _ _ _ _ _ _ hne _; exact absurd rfl hne
  | cons item rest ih =>
    intro i x y W H horizontal _ hw
    have hitem : 0 < item.weight := hw item (List.mem_cons_self _ _)
    have hrest : ∀ it ∈ rest, 0 < it.weight :=
      fun it hit => hw it (List.mem_cons_of_mem _ hit)
    have htot : totalWeight (item :: rest) = item.weight + totalWeight rest := by
      simp [totalWeight]
    have hsub : item.weight + totalWeight rest - item.weight =
        totalWeight rest := by ring
    rw [htot, squarifyGo_cons, hsub]
    cases rest with
    | nil =>
      have hS : item.weight + totalWeight [] = item.weight := by
        simp [totalWeight]
      rw [hS]
      split
      · simp only [List.map_cons, List.sum_cons, squarifyGo, List.map_nil,
          List.sum_nil]
        rw [div_self (ne_of_gt hitem)]
        ring
      · simp only [List.map_cons, List.sum_cons, squarifyGo, List.map_nil,
          List.sum_nil]
        rw [div_self (ne_of_gt hitem)]
        ring
    | cons r rs =>
      split
      · rw [List.map_cons, List.sum_cons,
          ih (i + 1) _ _ _ _ _ (List.cons_ne_nil _ _) hrest]
        ring
      · rw [List.map_cons, List.sum_cons,
          ih (i + 1) _ _ _ _ _ (List.cons_ne_nil _ _) hrest]
        ring

/-- Nonnegativity invariant of the slice-and-dice loop. -/
theorem squarifyGo_nonneg :
    ∀ (items : List HeatItem) (i : Nat) (x y W H : ℚ) (horizontal : Bool),
      (∀ it ∈ items, 0 < it.weight) → 0 ≤ W → 0 ≤ H →
      ∀ r ∈ squarifyGo items i x y W H (totalWeight items) horizontal,
        0 ≤ r.w ∧ 0 ≤ r.h := by
  intro items
  induction items with
  | nil => intro i x y W H horizontal _ _ _ r hr; simp [squarifyGo] at hr
  | cons item rest ih =>
    intro i x y W H horizontal hw hW hH r hr
    have hitem : 0 < item.weight := hw item (List.mem_cons_self _ _)
    have hrest : ∀ it ∈ rest, 0 < it.weight :=
      fun it hit => hw it (List.mem_cons_of_mem _ hit)
    have htot : totalWeight (item :: rest) = item.weight + totalWeight rest := by
      simp [totalWeight]
    have hrnn : 0 ≤ totalWeight rest := totalWeight_nonneg fun it hit =>
      le_of_lt (hrest it hit)
    have hS : 0 < item.weight + totalWeight rest := by linarith
    have hratio0 : 0 ≤ item.weight / (item.weight + totalWeight rest) :=
      div_nonneg (le_of_lt hitem) (le_of_lt hS)
    have hratio1 : item.weight / (item.weight + totalWeight rest) ≤ 1 :=
      (div_le_one hS).mpr (by linarith)
    have hsub : item.weight + totalWeight rest - item.weight =
        totalWeight rest := by ring
    rw [htot, squarifyGo_cons, hsub] at hr
    split at hr
    · rcases List.mem_cons.mp hr with rfl | hr
      · exact ⟨mul_nonneg hW hratio0, hH⟩
      · have hW' : 0 ≤ W - W * (item.weight / (item.weight + totalWeight rest)) := by
          have h1 := mul_le_mul_of_nonneg_left hratio1 hW
          linarith [h1]
        exact ih (i + 1) _ _ _ _ _ hrest hW' hH r hr
    · rcases List.mem_cons.mp hr with rfl | hr
      · exact ⟨hW, mul_nonneg hH hratio0⟩
      · have hH' : 0 ≤ H - H * (item.weight / (item.weight + totalWeight rest)) := by
          have h1 := mul_le_mul_of_nonneg_left hratio1 hH
          linarith [h1]
        exact ih (i + 1) _ _ _ _ _ hrest hW hH' r hr

/-- C3: for a nonempty item list with positive weights and a positive
container, every rectangle of the layout has nonnegative width and height and
the rectangle areas sum exactly to `width * height`. -/
theorem squarify_tiles_container (items : List HeatItem) (W H : ℚ)
    (hne : items ≠ []) (hw : ∀ it ∈ items, 0 < it.weight)
    (hW : 0 < W) (hH : 0 < H) :
    (∀ r ∈ squarify items W H, 0 ≤ r.w ∧ 0 ≤ r.h) ∧
    ((squarify items W H).map (fun r => r.w * r.h)).sum = W * H := by
  have hlen : ¬(items.length = 0 ∨ W ≤ 0 ∨ H ≤ 0) := by
    push_neg
    exact ⟨fun h => hne (List.eq_nil_of_length_eq_zero h), hW, hH⟩
  have htw : ¬(totalWeight items ≤ 0) := not_le.mpr (totalWeight_pos hne hw)
  constructor
  · intro r hr
    rw [squarify, if_neg hlen, if_neg htw] at hr
    exact squarifyGo_nonneg items 0 0 0 W H _ hw (le_of_lt hW) (le_of_lt hH) r hr
  · rw [squarify, if_neg hlen, if_neg htw]
    exact squarifyGo_area items 0 0 0 W H _ hne hw

/-- Witness for C3 on a concrete two-item layout in a 4 x 2 container. -/
theorem squarify_tiles_container_witness :
    (∀ r ∈ squarify demoItems 4 2, 0 ≤ r.w ∧ 0 ≤ r.h) ∧
    ((squarify demoItems 4 2).map (fun r => r.w * r.h)).sum = 4 * 2 :=
  squarify_tiles_container demoItems 4 2 (by decide)
    (by intro it hit; fin_cases hit <;> norm_num) (by norm_num) (by norm_num)

/-! ### Correlation engine (claims C4 and C9) -/

theorem list_zipWith_self {α β : Type} (f : α → α → β) :
    ∀ l : List α, List.zipWith f l l = l.map (fun x => f x x) := by
  intro l
  induction l with
  | nil => rfl
  | cons a t ih => simp [List.zipWith_cons_cons, ih]

theorem list_sum_zero_of_nonneg {l : List ℝ} (h0 : ∀ x ∈ l, 0 ≤ x)
    (hs : l.sum = 0) : ∀ x ∈ l, x = 0 := by
  induction l with
  | nil => simp
  | cons a t ih =>
    simp only [List.sum_cons] at hs
    have ha : 0 ≤ a := h0 a (List.mem_cons_self _ _)
    have ht : 0 ≤ t.sum :=
      List.sum_nonneg (fun x hx => h0 x (List.mem_cons_of_mem _ hx))
    have ha0 : a = 0 := by linarith
    have hts : t.sum = 0 := by linarith
    intro x hx
    rcases List.mem_cons.mp hx with rfl | hx
    · exact ha0
    · exact ih (fun y hy => h0 y (List.mem_cons_of_mem _ hy)) hts x hx

theorem ssd_nonneg (l : List ℝ) : 0 ≤ ssd l := by
  refine List.sum_nonneg ?_
  intro x hx
  rcases List.mem_map.mp hx with ⟨d, _, rfl⟩
  exact mul_self_nonneg d

/-- A zero sum of squared deviations forces every value to equal the mean. -/
theorem ssd_eq_zero_all_mean {l : List ℝ} (h : ssd l = 0) :
    ∀ v ∈ l, v = listMean l := by
  intro v hv
  have hd : (v - listMean l) ∈ deviations l :=
    List.mem_map_of_mem _ hv
  have hsq : (v - listMean l) * (v - listMean l) ∈
      (deviations l).map (fun d => d * d) := List.mem_map_of_mem _ hd
  have h0 : ∀ x ∈ (deviations l).map (fun d => d * d), (0 : ℝ) ≤ x := by
    intro x hx
    rcases List.mem_map.mp hx with ⟨d, _, rfl⟩
    exact mul_self_nonneg d
  have := list_sum_zero_of_nonneg h0 h _ hsq
  have := mul_self_eq_zero.mp this
  linarith

/-- C4: the correlation is symmetric in its two arguments, and the
self-correlation of a non-constant series of length at least 5 is exactly 1. -/
theorem calculateCorrelation_symm_and_self :
    (∀ a b : List ℝ, calculateCorrelation a b = calculateCorrelation b a) ∧
    (∀ a : List ℝ, 5 ≤ a.length → (∃ x ∈ a, ∃ y ∈ a, x ≠ y) →
      calculateCorrelation a a = 1) := by
  constructor
  · intro a b
    simp only [calculateCorrelation]
    rw [Nat.min_comm b.length a.length]
    by_cases h : min a.length b.length < 5
    · rw [if_pos h, if_pos h]
    · rw [if_neg h, if_neg h]
      rw [mul_comm (ssd (lastN b (min a.length b.length)))
        (ssd (lastN a (min a.length b.length)))]
      rw [List.zipWith_comm_of_comm _ mul_comm
        (deviations (lastN b (min a.length b.length)))
        (deviations (lastN a (min a.length b.length)))]
  · intro a h5 hnc
    simp only [calculateCorrelation]
    rw [Nat.min_self]
    rw [if_neg (by omega)]
    have hslice : lastN a a.length = a := by
      simp [lastN]
    rw [hslice]
    rw [list_zipWith_self (fun da db => da * db) (deviations a)]
    have hnum : ((deviations a).map (fun x => x * x)).sum = ssd a := rfl
    rw [hnum]
    have hnz : ssd a ≠ 0 := by
      intro h0
      rcases hnc with ⟨x, hx, y, hy, hxy⟩
      have h1 := ssd_eq_zero_all_mean h0 x hx
      have h2 := ssd_eq_zero_all_mean h0 y hy
      exact hxy (h1.trans h2.symm)
    rw [Real.sqrt_mul_self (ssd_nonneg a)]
    rw [if_neg hnz, div_self hnz]

/-- Witness for C4: self-correlation 1 on `[1,2,3,4,5]`, and symmetry applied
at a concrete pair. -/
theorem calculateCorrelation_symm_and_self_witness :
    calculateCorrelation corrSeries corrSeries = 1 ∧
    calculateCorrelation corrSeries [] = calculateCorrelation [] corrSeries := by
  constructor
  · refine calculateCorrelation_symm_and_self.2 corrSeries (by simp [corrSeries]) ?_
    exact ⟨1, by simp [corrSeries], 2, by simp [corrSeries], by norm_num⟩
  · exact calculateCorrelation_symm_and_self.1 corrSeries []

/-- C9: the correlation returns exactly 0 when the overlap is shorter than 5,
and exactly 0 when either truncated series has zero variance (which is
exactly when the code's denominator is 0). -/
theorem calculateCorrelation_degenerate_zero :
    (∀ a b : List ℝ, min a.length b.length < 5 → calculateCorrelation a b = 0) ∧
    (∀ a b : List ℝ, 5 ≤ min a.length b.length →
      ssd (lastN a (min a.length b.length)) = 0 ∨
        ssd (lastN b (min a.length b.length)) = 0 →
      calculateCorrelation a b = 0) := by
  constructor
  · intro a b h
    simp only [calculateCorrelation]
    rw [if_pos h]
  · intro a b h5 hz
    simp only [calculateCorrelation]
    rw [if_neg (by omega)]
    have hprod : ssd (lastN a (min a.length b.length)) *
        ssd (lastN b (min a.length b.length)) = 0 := by
      rcases hz with hz | hz <;> rw [hz] <;> ring
    rw [hprod, Real.sqrt_zero, if_pos rfl]

/-- Witness for C9: a 2-point overlap yields 0, and a constant 5-point series
(zero variance) against `[1,2,3,4,5]` yields 0. -/
theorem calculateCorrelation_degenerate_zero_witness :
    calculateCorrelation [1, 2] corrSeries = 0 ∧
    calculateCorrelation constSeries corrSeries = 0 := by
  constructor
  · exact calculateCorrelation_degenerate_zero.1 [1, 2] corrSeries
      (by simp [corrSeries])
  · refine calculateCorrelation_degenerate_zero.2 constSeries corrSeries
      (by simp [constSeries, corrSeries]) (Or.inl ?_)
    have hm : min constSeries.length corrSeries.length = 5 := by
      simp [constSeries, corrSeries]
    rw [hm]
    have hl : lastN constSeries 5 = constSeries := by
      simp [lastN, constSeries]
    rw [hl]
    norm_num [ssd, deviations, listMean, constSeries]

/-! ### Peak finding (claim C8) -/

theorem isHighAt_iff {data : List (Option ℚ)} {lookback i : Nat} {v : ℚ}
    (hlb : lookback ≤ i) :
    isHighAt data lookback i v = true ↔
      ∀ j, i - lookback ≤ j → j ≤ i + lookback → j ≠ i →
        ∀ u, nthVal data j = some u → u < v := by
  unfold isHighAt
  rw [List.all_eq_true]
  constructor
  · intro h j hj1 hj2 hne u hu
    have hmem : j ∈ List.range' (i - lookback) (2 * lookback + 1) := by
      rw [List.mem_range'_1]
      omega
    have h' := h j hmem
    rw [Bool.or_eq_true] at h'
    rcases h' with h' | h'
    · exact absurd (eq_of_beq h') hne
    · rw [hu] at h'
      exact of_decide_eq_true h'
  · intro h j hmem
    rw [List.mem_range'_1] at hmem
    rw [Bool.or_eq_true]
    by_cases hji : j = i
    · exact Or.inl (by simp [hji])
    · refine Or.inr ?_
      cases hu : nthVal data j with
      | none => rfl
      | some u => exact decide_eq_true (h j (by omega) (by omega) hji u hu)

theorem isLowAt_iff {data : List (Option ℚ)} {lookback i : Nat} {v : ℚ}
    (hlb : lookback ≤ i) :
    isLowAt data lookback i v = true ↔
      ∀ j, i - lookback ≤ j → j ≤ i + lookback → j ≠ i →
        ∀ u, nthVal data j = some u → v < u := by
  unfold isLowAt
  rw [List.all_eq_true]
  constructor
  · intro h j hj1 hj2 hne u hu
    have hmem : j ∈ List.range' (i - lookback) (2 * lookback + 1) := by
      rw [List.mem_range'_1]
      omega
    have h' := h j hmem
    rw [Bool.or_eq_true] at h'
    rcases h' with h' | h'
    · exact absurd (eq_of_beq h') hne
    · rw [hu] at h'
      exact of_decide_eq_true h'
  · intro h j hmem
    rw [List.mem_range'_1] at hmem
    rw [Bool.or_eq_true]
    by_cases hji : j = i
    · exact Or.inl (by simp [hji])
    · refine Or.inr ?_
      cases hu : nthVal data j with
      | none => rfl
      | some u => exact decide_eq_true (h j (by omega) (by omega) hji u hu)

theorem mem_peaksBlock_high {data : List (Option ℚ)} {lookback k i : Nat}
    {v : ℚ} :
    (⟨i, v, PeakKind.high⟩ : Peak) ∈ peaksBlock data lookback k ↔
      i = k ∧ lookback ≤ k ∧ k + lookback < data.length ∧
        nthVal data k = some v ∧ isHighAt data lookback k v = true := by
  unfold peaksBlock
  constructor
  · intro hmem
    split at hmem
    case isTrue hg =>
      cases hval : nthVal data k with
      | none =>
        rw [hval] at hmem
        exact absurd hmem (List.not_mem_nil _)
      | some w =>
        rw [hval] at hmem
        rw [List.mem_append] at hmem
        rcases hmem with hmem | hmem
        · split at hmem
          case isTrue hh =>
            rw [List.mem_singleton] at hmem
            injection hmem with h1 h2 h3
            subst h1
            subst h2
            exact ⟨rfl, hg.1, hg.2, rfl, hh⟩
          case isFalse => exact absurd hmem (List.not_mem_nil _)
        · split at hmem
          case isTrue hl =>
            rw [List.mem_singleton] at hmem
            injection hmem with h1 h2 h3
            exact PeakKind.noConfusion h3
          case isFalse => exact absurd hmem (List.not_mem_nil _)
    case isFalse hg => exact absurd hmem (List.not_mem_nil _)
  · rintro ⟨rfl, hlb, hlen, hval, hh⟩
    rw [if_pos ⟨hlb, hlen⟩]
    simp [hval, hh]

theorem mem_peaksBlock_low {data : List (Option ℚ)} {lookback k i : Nat}
    {v : ℚ} :
    (⟨i, v, PeakKind.low⟩ : Peak) ∈ peaksBlock data lookback k ↔
      i = k ∧ lookback ≤ k ∧ k + lookback < data.length ∧
        nthVal data k = some v ∧ isLowAt data lookback k v = true := by
  unfold peaksBlock
  constructor
  · intro hmem
    split at hmem
    case isTrue hg =>
      cases hval : nthVal data k with
      | none =>
        rw [hval] at hmem
        exact absurd hmem (List.not_mem_nil _)
      | some w =>
        rw [hval] at hmem
        rw [List.mem_append] at hmem
        rcases hmem with hmem | hmem
        · split at hmem
          case isTrue hh =>
            rw [List.mem_singleton] at hmem
            injection hmem with h1 h2 h3
            exact PeakKind.noConfusion h3
          case isFalse => exact absurd hmem (List.not_mem_nil _)
        · split at hmem
          case isTrue hl =>
            rw [List.mem_singleton] at hmem
            injection hmem with h1 h2 h3
            subst h1
            subst h2
            exact ⟨rfl, hg.1, hg.2, rfl, hl⟩
          case isFalse => exact absurd hmem (List.not_mem_nil _)
    case isFalse hg => exact absurd hmem (List.not_mem_nil _)
  · rintro ⟨rfl, hlb, hlen, hval, hl⟩
    rw [if_pos ⟨hlb, hlen⟩]
    simp only [hval]
    cases hh : isHighAt data lookback i v <;> simp [hh, hl]

/-- C8: `findPeaks` reports `i` as a local high (resp. low) with value `v`
exactly when `i` is an in-window index holding the defined value `v` and
every other in-window index with a defined value is strictly below
(resp. above) `v`; `NaN` (`none`) entries are skipped. -/
theorem findPeaks_reports_iff (data : List (Option ℚ)) (lookback i : Nat)
    (v : ℚ) :
    ((⟨i, v, PeakKind.high⟩ : Peak) ∈ findPeaks data lookback ↔
      lookback ≤ i ∧ i + lookback < data.length ∧ nthVal data i = some v ∧
        ∀ j, i - lookback ≤ j → j ≤ i + lookback → j ≠ i →
          ∀ u, nthVal data j = some u → u < v) ∧
    ((⟨i, v, PeakKind.low⟩ : Peak) ∈ findPeaks data lookback ↔
      lookback ≤ i ∧ i + lookback < data.length ∧ nthVal data i = some v ∧
        ∀ j, i - lookback ≤ j → j ≤ i + lookback → j ≠ i →
          ∀ u, nthVal data j = some u → v < u) := by
  constructor
  · unfold findPeaks
    rw [List.mem_flatMap]
    constructor
    · rintro ⟨k, _, hmem⟩
      rcases mem_peaksBlock_high.mp hmem with ⟨rfl, hlb, hlen, hval, hh⟩
      exact ⟨hlb, hlen, hval, (isHighAt_iff hlb).mp hh⟩
    · rintro ⟨hlb, hlen, hval, hcond⟩
      refine ⟨i, List.mem_range.mpr (by omega),
        mem_peaksBlock_high.mpr ⟨rfl, hlb, hlen, hval, ?_⟩⟩
      exact (isHighAt_iff hlb).mpr hcond
  · unfold findPeaks
    rw [List.mem_flatMap]
    constructor
    · rintro ⟨k, _, hmem⟩
      rcases mem_peaksBlock_low.mp hmem with ⟨rfl, hlb, hlen, hval, hl⟩
      exact ⟨hlb, hlen, hval, (isLowAt_iff hlb).mp hl⟩
    · rintro ⟨hlb, hlen, hval, hcond⟩
      refine ⟨i, List.mem_range.mpr (by omega),
        mem_peaksBlock_low.mpr ⟨rfl, hlb, hlen, hval, ?_⟩⟩
      exact (isLowAt_iff hlb).mpr hcond

/-- Witness for C8: index 1 of `[0, 5, 1]` is reported as a local high for
half-window 1. -/
theorem findPeaks_reports_iff_witness :
    (⟨1, 5, PeakKind.high⟩ : Peak) ∈ findPeaks peakData 1 := by
  refine (findPeaks_reports_iff peakData 1 1 5).1.mpr
    ⟨by norm_num, by norm_num [peakData], rfl, ?_⟩
  intro j h1 h2 hne u hu
  interval_cases j
  · simp only [nthVal, peakData, List.getD] at hu
    simp at hu
    rw [← hu]
    norm_num
  · exact absurd rfl hne
  · simp only [nthVal, peakData, List.getD] at hu
    simp at hu
    rw [← hu]
    norm_num

/-! ### Divergence invariants (claims C7 and C10) -/

theorem filter_flatMap {α β : Type} (l : List α) (f : α → List β) (p : β → Bool) :
    (l.flatMap f).filter p = l.flatMap fun a => (f a).filter p := by
  induction l with
  | nil => rfl
  | cons a t ih => simp [List.filter_append, ih]

theorem peaksBlock_index {data : List (Option ℚ)} {lb k : Nat} :
    ∀ p ∈ peaksBlock data lb k, p.index = k := by
  intro p hp
  unfold peaksBlock at hp
  split at hp
  · cases hval : nthVal data k with
    | none =>
      rw [hval] at hp
      exact absurd hp (List.not_mem_nil _)
    | some v =>
      rw [hval] at hp
      rw [List.mem_append] at hp
      rcases hp with hp | hp
      · split at hp
        · rw [List.mem_singleton] at hp
          subst hp
          rfl
        · exact absurd hp (List.not_mem_nil _)
      · split at hp
        · rw [List.mem_singleton] at hp
          subst hp
          rfl
        · exact absurd hp (List.not_mem_nil _)
  · exact absurd hp (List.not_mem_nil _)

theorem peaksBlock_filter_len (data : List (Option ℚ)) (lb k : Nat)
    (t : PeakKind) :
    ((peaksBlock data lb k).filter (fun p => p.type == t)).length ≤ 1 := by
  unfold peaksBlock
  split
  · cases nthVal data k with
    | none => simp
    | some v =>
      rw [List.filter_append]
      cases t <;> split <;> split <;> simp
  · simp

theorem pairwise_lt_flatMap_of_blocks (g : Nat → List Peak) :
    ∀ l : List Nat, List.Pairwise (· < ·) l →
      (∀ i ∈ l, ∀ p ∈ g i, p.index = i) →
      (∀ i ∈ l, (g i).length ≤ 1) →
      List.Pairwise (fun p q : Peak => p.index < q.index) (l.flatMap g) := by
  intro l
  induction l with
  | nil => intro _ _ _; simp
  | cons a t ih =>
    intro hl hg hone
    rw [List.flatMap_cons, List.pairwise_append]
    rw [List.pairwise_cons] at hl
    refine ⟨?_, ih hl.2 (fun i hi => hg i (List.mem_cons_of_mem _ hi))
      (fun i hi => hone i (List.mem_cons_of_mem _ hi)), ?_⟩
    · have h1 := hone a (List.mem_cons_self _ _)
      cases hga : g a with
      | nil => exact List.Pairwise.nil
      | cons x xs =>
        cases xs with
        | nil => exact List.pairwise_singleton _ _
        | cons y ys =>
          rw [hga] at h1
          simp at h1
    · intro p hp q hq
      rcases List.mem_flatMap.mp hq with ⟨j, hj, hqj⟩
      rw [hg a (List.mem_cons_self _ _) p hp,
        hg j (List.mem_cons_of_mem _ hj) q hqj]
      exact hl.1 j hj

/-- The type-filtered peak list has strictly increasing indices: the scan
visits indices in ascending order and pushes at most one peak of each kind
per index. -/
theorem filtered_peaks_pairwise (data : List (Option ℚ)) (lb : Nat)
    (t : PeakKind) :
    List.Pairwise (fun p q : Peak => p.index < q.index)
      ((findPeaks data lb).filter (fun p => p.type == t)) := by
  unfold findPeaks
  rw [filter_flatMap]
  apply pairwise_lt_flatMap_of_blocks
  · exact List.pairwise_lt_range _
  · intro i _ p hp
    exact peaksBlock_index p (List.mem_filter.mp hp).1
  · intro i _
    exact peaksBlock_filter_len data lb i t

theorem pairwise_zip_tail {α : Type} (R : α → α → Prop) :
    ∀ l : List α, List.Pairwise R l → ∀ pq ∈ l.zip l.tail, R pq.1 pq.2 := by
  intro l
  induction l with
  | nil => intro _ pq hpq; simp at hpq
  | cons a t ih =>
    intro hp pq hpq
    cases t with
    | nil => simp at hpq
    | cons b t' =>
      rw [List.pairwise_cons] at hp
      simp only [List.tail_cons, List.zip_cons_cons] at hpq
      rcases List.mem_cons.mp hpq with rfl | hpq
      · exact hp.1 b (List.mem_cons_self _ _)
      · exact ih hp.2 pq hpq

theorem mkBearishDivergence_some {name : IndicatorName} {lb maxD : Nat}
    {indHighs : List Peak} {pr : Peak × Peak} {d : Divergence}
    (h : mkBearishDivergence name lb maxD indHighs pr = some d) :
    d.type = .bearish ∧ d.startIndex = pr.1.index ∧ d.endIndex = pr.2.index ∧
      d.priceStart < d.priceEnd ∧ d.indicatorEnd < d.indicatorStart ∧
      d.strength = classifyStrength
        ((d.priceEnd - d.priceStart) / d.priceStart +
          (d.indicatorStart - d.indicatorEnd) / qabs (jsOrOne d.indicatorStart)) := by
  simp only [mkBearishDivergence] at h
  by_cases h1 : (pr.2.index : ℤ) - (pr.1.index : ℤ) > (maxD : ℤ)
  · rw [if_pos h1] at h
    exact Option.noConfusion h
  · rw [if_neg h1] at h
    by_cases h2 : pr.2.value ≤ pr.1.value
    · rw [if_pos h2] at h
      exact Option.noConfusion h
    · rw [if_neg h2] at h
      cases hf1 : indHighs.find?
          (fun ih => decide (((ih.index : ℤ) - (pr.1.index : ℤ)).natAbs ≤ lb + 2)) with
      | none =>
        simp only [hf1] at h
        exact Option.noConfusion h
      | some ih1 =>
        simp only [hf1] at h
        cases hf2 : indHighs.find?
            (fun ih => decide (((ih.index : ℤ) - (pr.2.index : ℤ)).natAbs ≤ lb + 2)) with
        | none =>
          simp only [hf2] at h
          exact Option.noConfusion h
        | some ih2 =>
          simp only [hf2] at h
          by_cases h3 : ih1.value ≤ ih2.value
          · rw [if_pos h3] at h
            exact Option.noConfusion h
          · rw [if_neg h3] at h
            rw [Option.some.injEq] at h
            subst h
            exact ⟨rfl, rfl, rfl, not_le.mp h2, not_le.mp h3, rfl⟩

theorem mkBullishDivergence_some {name : IndicatorName} {lb maxD : Nat}
    {indLows : List Peak} {pr : Peak × Peak} {d : Divergence}
    (h : mkBullishDivergence name lb maxD indLows pr = some d) :
    d.type = .bullish ∧ d.startIndex = pr.1.index ∧ d.endIndex = pr.2.index ∧
      d.priceEnd < d.priceStart ∧ d.indicatorStart < d.indicatorEnd ∧
      d.strength = classifyStrength
        ((d.priceStart - d.priceEnd) / d.priceStart +
          (d.indicatorEnd - d.indicatorStart) / qabs (jsOrOne d.indicatorStart)) := by
  simp only [mkBullishDivergence] at h
  by_cases h1 : (pr.2.index : ℤ) - (pr.1.index : ℤ) > (maxD : ℤ)
  · rw [if_pos h1] at h
    exact Option.noConfusion h
  · rw [if_neg h1] at h
    by_cases h2 : pr.1.value ≤ pr.2.value
    · rw [if_pos h2] at h
      exact Option.noConfusion h
    · rw [if_neg h2] at h
      cases hf1 : indLows.find?
          (fun il => decide (((il.index : ℤ) - (pr.1.index : ℤ)).natAbs ≤ lb + 2)) with
      | none =>
        simp only [hf1] at h
        exact Option.noConfusion h
      | some il1 =>
        simp only [hf1] at h
        cases hf2 : indLows.find?
            (fun il => decide (((il.index : ℤ) - (pr.2.index : ℤ)).natAbs ≤ lb + 2)) with
        | none =>
          simp only [hf2] at h
          exact Option.noConfusion h
        | some il2 =>
          simp only [hf2] at h
          by_cases h3 : il2.value ≤ il1.value
          · rw [if_pos h3] at h
            exact Option.noConfusion h
          · rw [if_neg h3] at h
            rw [Option.some.injEq] at h
            subst h
            exact ⟨rfl, rfl, rfl, not_le.mp h2, not_le.mp h3, rfl⟩

/-- C10: every returned divergence runs forward in time
(`startIndex < endIndex`); a bearish one records a higher price high with a
lower indicator high, a bullish one a lower price low with a higher indicator
low. -/
theorem detectDivergences_invariants (prices ind : List (Option ℚ))
    (name : IndicatorName) (lb maxD : Nat) :
    ∀ d ∈ detectDivergences prices ind name lb maxD,
      d.startIndex < d.endIndex ∧
      (d.type = .bearish →
        d.priceStart < d.priceEnd ∧ d.indicatorEnd < d.indicatorStart) ∧
      (d.type = .bullish →
        d.priceEnd < d.priceStart ∧ d.indicatorStart < d.indicatorEnd) := by
  intro d hd
  simp only [detectDivergences] at hd
  rw [List.mem_append] at hd
  rcases hd with hd | hd
  · rcases List.mem_filterMap.mp hd with ⟨pr, hpr, hsome⟩
    have hlt : pr.1.index < pr.2.index := by
      have hpw := filtered_peaks_pairwise prices lb PeakKind.high
      exact pairwise_zip_tail _ _ hpw pr hpr
    obtain ⟨htype, hsi, hei, hps, hind, _⟩ := mkBearishDivergence_some hsome
    refine ⟨by rw [hsi, hei]; exact hlt, fun _ => ⟨hps, hind⟩, fun hb => ?_⟩
    rw [htype] at hb
    exact DivergenceType.noConfusion hb
  · rcases List.mem_filterMap.mp hd with ⟨pr, hpr, hsome⟩
    have hlt : pr.1.index < pr.2.index := by
      have hpw := filtered_peaks_pairwise prices lb PeakKind.low
      exact pairwise_zip_tail _ _ hpw pr hpr
    obtain ⟨htype, hsi, hei, hps, hind, _⟩ := mkBullishDivergence_some hsome
    refine ⟨by rw [hsi, hei]; exact hlt, fun hb => ?_, fun _ => ⟨hps, hind⟩⟩
    rw [htype] at hb
    exact DivergenceType.noConfusion hb

/-- C7: the `strength` of every returned divergence is the threshold
classification of the combined metric recomputed from its own fields, the
classification is `strong` exactly above 0.15, `moderate` exactly on
(0.08, 0.15], `weak` otherwise, and a combined metric of 0.20 is `strong`. -/
theorem detectDivergences_strength_rule (prices ind : List (Option ℚ))
    (name : IndicatorName) (lb maxD : Nat) :
    (∀ d ∈ detectDivergences prices ind name lb maxD,
      d.strength = classifyStrength (combinedStrengthOf d)) ∧
    (∀ c : ℚ,
      (classifyStrength c = .strong ↔ 0.15 < c) ∧
      (classifyStrength c = .moderate ↔ 0.08 < c ∧ c ≤ 0.15) ∧
      (classifyStrength c = .weak ↔ c ≤ 0.08)) ∧
    classifyStrength 0.2 = .strong := by
  refine ⟨?_, ?_, ?_⟩
  · intro d hd
    simp only [detectDivergences] at hd
    rw [List.mem_append] at hd
    rcases hd with hd | hd
    · rcases List.mem_filterMap.mp hd with ⟨pr, _, hsome⟩
      obtain ⟨htype, _, _, _, _, hstr⟩ := mkBearishDivergence_some hsome
      rw [hstr]
      simp only [combinedStrengthOf, htype]
    · rcases List.mem_filterMap.mp hd with ⟨pr, _, hsome⟩
      obtain ⟨htype, _, _, _, _, hstr⟩ := mkBullishDivergence_some hsome
      rw [hstr]
      simp only [combinedStrengthOf, htype]
  · intro c
    by_cases h1 : (0.15 : ℚ) < c
    · have e : classifyStrength c = .strong := by
        unfold classifyStrength
        rw [if_pos h1]
      rw [e]
      exact ⟨⟨fun _ => h1, fun _ => rfl⟩,
        ⟨fun h => Strength.noConfusion h, fun h => absurd h.2 (not_le.mpr h1)⟩,
        ⟨fun h => Strength.noConfusion h,
          fun h => absurd h (not_le.mpr (lt_trans (by norm_num) h1))⟩⟩
    · by_cases h2 : (0.08 : ℚ) < c
      · have e : classifyStrength c = .moderate := by
          unfold classifyStrength
          rw [if_neg h1, if_pos h2]
        rw [e]
        exact ⟨⟨fun h => Strength.noConfusion h, fun h => absurd h h1⟩,
          ⟨fun _ => ⟨h2, not_lt.mp h1⟩, fun _ => rfl⟩,
          ⟨fun h => Strength.noConfusion h, fun h => absurd h (not_le.mpr h2)⟩⟩
      · have e : classifyStrength c = .weak := by
          unfold classifyStrength
          rw [if_neg h1, if_neg h2]
        rw [e]
        exact ⟨⟨fun h => Strength.noConfusion h, fun h => absurd h h1⟩,
          ⟨fun h => Strength.noConfusion h, fun h => absurd h.1 h2⟩,
          ⟨fun _ => not_lt.mp h2, fun _ => rfl⟩⟩
  · unfold classifyStrength
    rw [if_pos (by norm_num)]

unseal Rat.inv Rat.mul Rat.add Rat.sub Rat.ofScientific in
/-- Witness for C7 at the concrete bearish divergence. -/
theorem detectDivergences_strength_rule_witness :
    demoDivergence.strength = classifyStrength (combinedStrengthOf demoDivergence) :=
  (detectDivergences_strength_rule divPrices divIndicator .RSI 1 30).1
    demoDivergence (by decide)

unseal Rat.inv Rat.mul Rat.add Rat.sub Rat.ofScientific in
/-- Witness for C10 at the concrete bearish divergence. -/
theorem detectDivergences_invariants_witness :
    demoDivergence.startIndex < demoDivergence.endIndex ∧
    demoDivergence.priceStart < demoDivergence.priceEnd := by
  have h := detectDivergences_invariants divPrices divIndicator .RSI 1 30
    demoDivergence (by decide)
  exact ⟨h.1, (h.2.1 rfl).1⟩

/-! ### Aggregation (claim C5) -/

/-- C5: below 30 candles the aggregate is empty; otherwise it is the merge of
the RSI run and the MACD-histogram run, sorted by descending `endIndex`
(a permutation of the merge, pairwise descending), truncated to at most 10. -/
theorem divergenceAggregate_spec (data : List OHLCV) :
    (data.length < 30 → divergenceAggregate data = []) ∧
    (30 ≤ data.length →
      divergenceAggregate data =
        (sortByEndIndexDesc (mergedDivergences data)).take 10) ∧
    (sortByEndIndexDesc (mergedDivergences data)).Perm
      (mergedDivergences data) ∧
    List.Pairwise (fun a b : Divergence => b.endIndex ≤ a.endIndex)
      (sortByEndIndexDesc (mergedDivergences data)) ∧
    (divergenceAggregate data).length ≤ 10 := by
  refine ⟨?_, ?_, ?_, ?_, ?_⟩
  · intro h
    unfold divergenceAggregate
    rw [if_pos h]
  · intro h
    unfold divergenceAggregate
    rw [if_neg (by omega)]
  · exact List.perm_insertionSort _ _
  · exact List.sorted_insertionSort byEndIndexDesc (mergedDivergences data)
  · unfold divergenceAggregate
    split
    · simp
    · exact List.length_take_le _ _

/-- Witness for C5: the empty series yields `[]`, and a 30-candle series is
handled by the sort-merge-truncate branch. -/
theorem divergenceAggregate_spec_witness :
    divergenceAggregate ([] : List OHLCV) = [] ∧
    divergenceAggregate thirtyCandles =
      (sortByEndIndexDesc (mergedDivergences thirtyCandles)).take 10 := by
  refine ⟨(divergenceAggregate_spec []).1 (by decide), ?_⟩
  exact (divergenceAggregate_spec thirtyCandles).2.1 (by simp [thirtyCandles])
